import Mathlib

/-!
Verification development for the content-ingestion and integrity subsystem of
the file-repository application: the document store access layer
(`app/database.py`), the background hash sweep (`app/main.py`), the report /
hash API routes (`app/routes/api.py`, `app/routes/mod.py`) and the directory
scanner (`app/routes/admin.py`), shallowly embedded as pure Lean functions
over an explicit store state.
-/

namespace SwitchRepo

/-! ## Data model

An `Entry` mirrors a document of the `entries` collection with the fields the
integrity pipeline touches.  `type` is the resource kind string
(`"filepath"` or `"url"`).  The digest fields are three-valued exactly as in
the store: `none` (attribute absent or null), `some "processing"` (the
sentinel claim), or `some` of a hex digest. -/

structure Entry where
  key : Nat
  name : String
  source : String
  type : String
  file_type : String
  size : Nat
  created_by : String
  created_at : String
  corrupt : Bool
  md5_hash : Option String
  sha256_hash : Option String
deriving Repr, DecidableEq

/-- A document of the `reports` collection, as built by
`Database.create_report`. -/
structure Report where
  key : Nat
  entry_id : Nat
  entry_name : String
  user_id : String
  username : String
  reason : String
  description : String
  status : String
  resolved_at : Option String
  resolved_by : Option String
  resolved_by_username : Option String
deriving Repr, DecidableEq

/-- The shared document store: the `entries` and `reports` collections plus a
key counter standing in for ArangoDB key assignment. -/
structure Store where
  entries : List Entry
  reports : List Report
  nextKey : Nat
deriving Repr, DecidableEq

/-- Python truthiness of an optional string (`if md5_hash:` in
`Database.update_entry_hashes`): `None` and the empty string are falsy. -/
def truthyStr : Option String → Bool
  | none => false
  | some s => !s.isEmpty

/-- A JSON-ish value as held in the dicts the data layer returns. -/
inductive DVal where
  | str (s : String)
  | num (n : Nat)
  | boolean (b : Bool)
  | null
deriving Repr, DecidableEq

/-- Python dict lookup `d.get(k)`: `None` (here `DVal.null`) when the key is
absent. -/
def dictGet (d : List (String × DVal)) (k : String) : DVal :=
  match d.find? (fun p => p.1 == k) with
  | some p => p.2
  | none => .null

/-- Python dict lookup `d.get(k, default)` where the default is a string. -/
def dictGetStr (d : List (String × DVal)) (k : String) (dflt : String) : String :=
  match dictGet d k with
  | .str s => s
  | _ => dflt

/-- Python truthiness of a `DVal` (`if entry.get('md5_hash'):`). -/
def truthyD : DVal → Bool
  | .str s => !s.isEmpty
  | .num n => n != 0
  | .boolean b => b
  | .null => false

/-! ## Entry Store access layer (`app/database.py`) -/

/-- Model of `Database.get_entry_by_id`: fetches the document and rebuilds a dict with
exactly the keys listed in the source (`id`, `name`, `source`, `type`,
`file_type`, `size`, `created_at`, `created_by`, `metadata`).  Note that the
digest fields and the corrupt flag are *not* part of the returned dict. -/
def get_entry_by_id (st : Store) (entry_id : Nat) : Option (List (String × DVal)) :=
  (st.entries.find? (fun e => e.key == entry_id)).map fun doc =>
    [("id", .num doc.key), ("name", .str doc.name), ("source", .str doc.source),
     ("type", .str doc.type), ("file_type", .str doc.file_type),
     ("size", .num doc.size), ("created_at", .str doc.created_at),
     ("created_by", .str doc.created_by), ("metadata", .null)]

/-- Single-document update on the `entries` collection: merge `f` into the
document with the given key; an update against a missing key raises inside
the driver, which every caller catches and turns into `False`. -/
def updateEntryDoc (st : Store) (k : Nat) (f : Entry → Entry) : Store × Bool :=
  if st.entries.any (fun e => e.key == k) then
    ({ st with entries := st.entries.map fun e => if e.key == k then f e else e }, true)
  else (st, false)

/-- Model of `Database.mark_entry_corrupt`: sets the `corrupt` attribute of one entry. -/
def mark_entry_corrupt (st : Store) (entry_id : Nat) (corrupt : Bool) : Store × Bool :=
  updateEntryDoc st entry_id (fun e => { e with corrupt := corrupt })

/-- Model of `Database.update_entry_hashes`: builds `update_data` with only the truthy
arguments, performs the update only when `update_data` is non-empty, and
returns whether an update was issued. -/
def update_entry_hashes (st : Store) (entry_id : Nat)
    (md5_hash sha256_hash : Option String) : Store × Bool :=
  if truthyStr md5_hash || truthyStr sha256_hash then
    updateEntryDoc st entry_id (fun e =>
      { e with
        md5_hash := if truthyStr md5_hash then md5_hash else e.md5_hash
        sha256_hash := if truthyStr sha256_hash then sha256_hash else e.sha256_hash })
  else (st, false)

/-- Model of `Database.entry_exists`: does any entry have this exact `source`? -/
def entry_exists (st : Store) (source : String) : Bool :=
  st.entries.any (fun e => e.source == source)

/-- Model of `Database.add_entry` as used by the scanner: insert a fresh document and
return its key. -/
def add_entry (st : Store) (name source type file_type : String) (size : Nat)
    (created_by created_at : String) : Store × Nat :=
  let e : Entry :=
    { key := st.nextKey, name := name, source := source, type := type,
      file_type := file_type, size := size, created_by := created_by,
      created_at := created_at, corrupt := false,
      md5_hash := none, sha256_hash := none }
  ({ st with entries := st.entries ++ [e], nextKey := st.nextKey + 1 }, st.nextKey)

/-- Model of `Database.create_report`: inserts a report document with status `"open"`
and null resolution fields, returning its key. -/
def create_report (st : Store) (entry_id : Nat)
    (entry_name user_id username reason description : String) : Store × Nat :=
  let r : Report :=
    { key := st.nextKey, entry_id := entry_id, entry_name := entry_name,
      user_id := user_id, username := username, reason := reason,
      description := description, status := "open",
      resolved_at := none, resolved_by := none, resolved_by_username := none }
  ({ st with reports := st.reports ++ [r], nextKey := st.nextKey + 1 }, st.nextKey)

/-- Model of `Database.resolve_report`: sets status `"resolved"` plus the resolution
timestamp and resolver identity on one report. -/
def resolve_report (st : Store) (report_id : Nat)
    (resolved_by_id resolved_by_username now : String) : Store × Bool :=
  if st.reports.any (fun r => r.key == report_id) then
    ({ st with reports := st.reports.map fun r =>
        if r.key == report_id then
          { r with status := "resolved", resolved_at := some now,
                   resolved_by := some resolved_by_id,
                   resolved_by_username := some resolved_by_username }
        else r }, true)
  else (st, false)

/-- Modelled from the spec: `Database.clear_all_corrupt_flags` is invoked by
`mod_clear_all_corrupt_flags` (`app/routes/mod.py`) but its definition is not
among the sources; per the spec it "bulk-sets corrupt=false on every
currently-corrupt Entry; returns the count cleared.  Does not resolve any
Reports." -/
def clear_all_corrupt_flags (st : Store) : Store × Nat :=
  ({ st with entries := st.entries.map fun e =>
      if e.corrupt then { e with corrupt := false } else e },
   (st.entries.filter (fun e => e.corrupt)).length)

/-! ## Integrity / report routes (`app/routes/api.py`, `app/routes/mod.py`) -/

inductive SubmitResult where
  | badRequest
  | notFound
  | created (report_id : Nat)
deriving Repr, DecidableEq

/-- Core of the `submit_report` route (authentication and activity logging
aside): reject when `entry_id` or `reason` is missing, 404 when the entry does
not exist, otherwise `create_report` followed by
`mark_entry_corrupt(entry_id, True)`. -/
def submit_report (st : Store) (entry_id : Nat)
    (entry_name reason description user_id username : String) : Store × SubmitResult :=
  if reason.isEmpty then (st, .badRequest)
  else
    match get_entry_by_id st entry_id with
    | none => (st, .notFound)
    | some entry =>
      let ename := if !entry_name.isEmpty then entry_name
                   else dictGetStr entry "name" "Unknown"
      let step1 := create_report st entry_id ename user_id username reason description
      let step2 := mark_entry_corrupt step1.1 entry_id true
      (step2.1, .created step1.2)

/-- Core of the `mod_mark_entry_valid` route: look the entry up, then
`mark_entry_corrupt(entry_id, False)`. -/
def mod_mark_entry_valid (st : Store) (entry_id : Nat) : Store × Bool :=
  match get_entry_by_id st entry_id with
  | none => (st, false)
  | some _ => mark_entry_corrupt st entry_id false

/-- Core of the `mod_clear_all_corrupt_flags` route: delegates to
`Database.clear_all_corrupt_flags` and reports the cleared count. -/
def mod_clear_all_corrupt_flags (st : Store) : Store × Nat :=
  clear_all_corrupt_flags st

inductive HashResp where
  | notFound
  | cached (md5 sha256 : String)
  | filesOnly
  | fileMissing
  | processingAck (entry_id : Nat) (filepath : String)
deriving Repr, DecidableEq

/-- Core of the `compute_file_hashes` route: fetch the entry dict via
`get_entry_by_id`, return the cached digests when both are truthy in that
dict, refuse non-`filepath` entries, 404 when the backing file is gone, and
otherwise acknowledge and schedule `_compute_and_store_hashes` as a
background task (`processingAck` carries the arguments of that task).  The
filesystem is the oracle `fs`, mapping a path to its byte content when the
path names an existing regular file. -/
def compute_file_hashes (st : Store) (fs : String → Option (List Nat))
    (entry_id : Nat) : HashResp :=
  match get_entry_by_id st entry_id with
  | none => .notFound
  | some entry =>
    if truthyD (dictGet entry "md5_hash") && truthyD (dictGet entry "sha256_hash") then
      .cached (dictGetStr entry "md5_hash" "") (dictGetStr entry "sha256_hash" "")
    else if dictGet entry "type" != .str "filepath" then
      .filesOnly
    else
      let filepath := dictGetStr entry "source" ""
      if filepath.isEmpty || (fs filepath).isNone then .fileMissing
      else .processingAck entry_id filepath

/-! ## Hash worker (`_compute_hashes_sync` in `app/routes/api.py` and the
sweep body of `compute_hashes_for_unhashed_entries` in `app/main.py`)

`hashlib` hasher objects are modelled by their documented semantics: the
digest is a pure function of the concatenation of all bytes fed to `update`,
so a hasher state is the list of absorbed bytes and a hex digest is an
arbitrary pure function `List Nat → String` of it (`md5fun`, `sha256fun`). -/

/-- The fixed chunk size of `_compute_hashes_sync`. -/
def chunkSize : Nat := 8192

/-- The read loop of `_compute_hashes_sync`: read `chunkSize` bytes at a time
until the read comes back empty, feeding each chunk to both hasher states in
the same pass. -/
def absorbLoop (md5acc sha256acc rest : List Nat) : List Nat × List Nat :=
  if rest.isEmpty then (md5acc, sha256acc)
  else absorbLoop (md5acc ++ rest.take chunkSize) (sha256acc ++ rest.take chunkSize)
       (rest.drop chunkSize)
termination_by rest.length
decreasing_by
  have h : rest ≠ [] := by simp_all [List.isEmpty_iff]
  have hp : 0 < rest.length := List.length_pos.mpr h
  simp only [List.length_drop, chunkSize]
  omega

/-- Model of `_compute_hashes_sync`: streams the file (`content`) through both hashers
chunk by chunk and returns the pair of hex digests. -/
def computeHashesSync (md5fun sha256fun : List Nat → String)
    (content : List Nat) : String × String :=
  let acc := absorbLoop [] [] content
  (md5fun acc.1, sha256fun acc.2)

/-- The selection predicate of the AQL query of the sweep: kind `filepath`
and (md5 absent, or sha256 absent, or either equal to the sentinel string
processing). -/
def needsHashAttention (e : Entry) : Bool :=
  e.type == "filepath" &&
    (e.md5_hash == none || e.sha256_hash == none ||
     e.md5_hash == some "processing" || e.sha256_hash == some "processing")

/-- The selection of the sweep: all entries matching the AQL filter, projected (the
query keeps `_key`, `source`, `name`, `md5_hash`, `sha256_hash`). -/
def selectEntriesForHashing (st : Store) : List Entry :=
  st.entries.filter needsHashAttention

/-- The per-item projection of the sweep query. -/
structure SweepItem where
  key : Nat
  source : String
  name : String
  md5_hash : Option String
  sha256_hash : Option String
deriving Repr, DecidableEq

def toSweepItem (e : Entry) : SweepItem :=
  { key := e.key, source := e.source, name := e.name,
    md5_hash := e.md5_hash, sha256_hash := e.sha256_hash }

/-- The per-entry body of the sweep loop in
`compute_hashes_for_unhashed_entries`.  `fs` is the filesystem oracle
(`some content` when the path names an existing regular file); `failing`
says whether the digest computation for this entry raises (the `except`
branch of the loop).  Missing file: clear the claim via
`update_entry_hashes(id, None, None)` only when a sentinel is present.
Otherwise: claim both fields with the sentinel, compute, and either persist
the digests or, on an exception, attempt the same `None, None` clear. -/
def processSweepEntry (fs : String → Option (List Nat))
    (md5fun sha256fun : List Nat → String) (failing : Nat → Bool)
    (st : Store) (item : SweepItem) : Store :=
  if item.source.isEmpty then
    if item.md5_hash == some "processing" || item.sha256_hash == some "processing" then
      (update_entry_hashes st item.key none none).1
    else st
  else
    match fs item.source with
    | none =>
      if item.md5_hash == some "processing" || item.sha256_hash == some "processing" then
        (update_entry_hashes st item.key none none).1
      else st
    | some content =>
      let st1 := (update_entry_hashes st item.key (some "processing") (some "processing")).1
      if failing item.key then
        (update_entry_hashes st1 item.key none none).1
      else
        let digests := computeHashesSync md5fun sha256fun content
        (update_entry_hashes st1 item.key (some digests.1) (some digests.2)).1

/-- One full sweep: snapshot the selection, then process each selected item in
order against the evolving store. -/
def runHashSweep (fs : String → Option (List Nat))
    (md5fun sha256fun : List Nat → String) (failing : Nat → Bool)
    (st : Store) : Store :=
  ((selectEntriesForHashing st).map toSweepItem).foldl
    (processSweepEntry fs md5fun sha256fun failing) st

/-! ## Directory scanner (`scan_directory_for_files` in
`app/routes/admin.py`)

The recursive bounded-depth walk plus extension filter is abstracted into the
list `files` of candidate paths it yields; the claims under study quantify
over one fixed tree, i.e. one fixed candidate list. -/

/-- Model of `should_process_file`: extension filter over the three game formats. -/
def should_process_file (file_path : String) : Bool :=
  let lower := file_path.toLower
  lower.endsWith ".nsz" || lower.endsWith ".nsp" || lower.endsWith ".xci"

/-- Model of `get_file_type`: the format tag from the (lowercased) extension. -/
def get_file_type (file_path : String) : String :=
  let lower := file_path.toLower
  if lower.endsWith ".nsz" then "nsz"
  else if lower.endsWith ".nsp" then "nsp"
  else if lower.endsWith ".xci" then "xci"
  else "nsp"

/-- The filename without directory, as `os.path.basename`. -/
def pathBasename (file_path : String) : String :=
  match (file_path.splitOn "/").reverse with
  | [] => file_path
  | b :: _ => b

/-- The display name: basename with the last extension stripped
(`os.path.splitext(os.path.basename(p))[0]`). -/
def displayNameOf (file_path : String) : String :=
  let b := pathBasename file_path
  match b.splitOn "." with
  | [] => b
  | [whole] => whole
  | parts => String.intercalate "." (parts.dropLast)

/-- One iteration of the scan loop over a candidate path: skip when an entry
with that source exists, otherwise stat the file (`sizeOf`) and insert a
fresh entry; the accumulator is `(store, added_count, skipped_count)`. -/
def scanStep (sizeOf : String → Nat) (username now : String)
    (acc : Store × Nat × Nat) (fp : String) : Store × Nat × Nat :=
  if entry_exists acc.1 fp then (acc.1, acc.2.1, acc.2.2 + 1)
  else
    let st' := (add_entry acc.1 (displayNameOf fp) fp "filepath"
                  (get_file_type fp) (sizeOf fp) username now).1
    (st', acc.2.1 + 1, acc.2.2)

/-- The body of `scan_directory_for_files` past the walk: fold the scan loop
over every candidate path; returns `(added_count, skipped_count)`. -/
def scan_directory_for_files (st : Store) (files : List String)
    (sizeOf : String → Nat) (username now : String) : Store × Nat × Nat :=
  files.foldl (scanStep sizeOf username now) (st, 0, 0)

/-! ## Concrete fixtures used by closed theorems and witnesses -/

/-- An entry that already carries both valid digests. -/
def demoEntryHashed : Entry :=
  { key := 1, name := "A", source := "/games/a.nsp", type := "filepath",
    file_type := "nsp", size := 10, created_by := "admin", created_at := "t0",
    corrupt := false,
    md5_hash := some "0123456789abcdef0123456789abcdef",
    sha256_hash :=
      some "0123456789abcdef0123456789abcdef0123456789abcdef0123456789abcdef" }

def demoStoreHashed : Store :=
  { entries := [demoEntryHashed], reports := [], nextKey := 2 }

/-- An entry claimed by an interrupted sweep (both fields hold the sentinel)
whose backing file has vanished. -/
def demoEntryStuck : Entry :=
  { key := 1, name := "B", source := "/games/gone.nsp", type := "filepath",
    file_type := "nsp", size := 10, created_by := "admin", created_at := "t0",
    corrupt := false, md5_hash := some "processing", sha256_hash := some "processing" }

def demoStoreStuck : Store :=
  { entries := [demoEntryStuck], reports := [], nextKey := 2 }

/-- A store with one corrupt and one clean entry. -/
def demoStoreCorrupt : Store :=
  { entries := [{ demoEntryHashed with corrupt := true },
                { demoEntryStuck with key := 2 }],
    reports := [], nextKey := 3 }

/-- A filesystem on which no path resolves to a regular file. -/
def fsGone : String → Option (List Nat) := fun _ => none

/-- A filesystem on which every path is a readable empty regular file. -/
def fsEmptyFiles : String → Option (List Nat) := fun _ => some []

/-- No per-entry digest computation raises. -/
def noFailures : Nat → Bool := fun _ => false

/-- A stand-in hex-digest function of the MD5 shape (32 characters). -/
def constHex32 : List Nat → String := fun _ => "aaaaaaaaaaaaaaaaaaaaaaaaaaaaaaaa"

/-- A stand-in hex-digest function of the SHA-256 shape (64 characters). -/
def constHex64 : List Nat → String :=
  fun _ => "aaaaaaaaaaaaaaaaaaaaaaaaaaaaaaaaaaaaaaaaaaaaaaaaaaaaaaaaaaaaaaaa"

/-- No two entries share a `source` (the store invariant the scanner relies
on). -/
def noDupSources (st : Store) : Prop :=
  st.entries.Pairwise (fun a b => a.source ≠ b.source)

/-! ## Lemmas on the store access layer -/

theorem updateEntryDoc_reports (st : Store) (k : Nat) (f : Entry → Entry) :
    (updateEntryDoc st k f).1.reports = st.reports := by
  unfold updateEntryDoc
  split <;> rfl

theorem mem_updateEntryDoc (st : Store) (k : Nat) (f : Entry → Entry) {e : Entry}
    (he : e ∈ st.entries) :
    (if e.key == k then f e else e) ∈ (updateEntryDoc st k f).1.entries := by
  unfold updateEntryDoc
  split
  · exact List.mem_map.mpr ⟨e, he, rfl⟩
  next hany =>
    have hne : (e.key == k) = false := by
      by_contra hcon
      exact hany (List.any_eq_true.mpr ⟨e, he, by simpa using hcon⟩)
    simpa [hne] using he

theorem mem_updateEntryDoc_of_ne (st : Store) (k : Nat) (f : Entry → Entry) {e : Entry}
    (he : e ∈ st.entries) (h : e.key ≠ k) :
    e ∈ (updateEntryDoc st k f).1.entries := by
  have := mem_updateEntryDoc st k f he
  simpa [h] using this

theorem updateEntryDoc_mem_elim (st : Store) (k : Nat) (f : Entry → Entry) {e' : Entry}
    (h : e' ∈ (updateEntryDoc st k f).1.entries) :
    ∃ e ∈ st.entries, (e' = e ∧ e.key ≠ k) ∨ (e.key = k ∧ e' = f e) := by
  unfold updateEntryDoc at h
  split at h
  · obtain ⟨e, he, hfe⟩ := List.mem_map.mp h
    by_cases hk : e.key = k
    · exact ⟨e, he, Or.inr ⟨hk, by simp [hk] at hfe; exact hfe.symm⟩⟩
    · exact ⟨e, he, Or.inl ⟨by simp [hk] at hfe; exact hfe.symm, hk⟩⟩
  next hany =>
    refine ⟨e', h, Or.inl ⟨rfl, fun hk => ?_⟩⟩
    exact hany (List.any_eq_true.mpr ⟨e', h, by simpa using hk⟩)

theorem updateEntryDoc_sets (st : Store) (k : Nat) (f : Entry → Entry)
    (P : Entry → Prop) (hP : ∀ e, e.key = k → P (f e)) {e' : Entry}
    (h : e' ∈ (updateEntryDoc st k f).1.entries) (hk : e'.key = k) : P e' := by
  unfold updateEntryDoc at h
  split at h
  · obtain ⟨e, he, hfe⟩ := List.mem_map.mp h
    by_cases hek : e.key = k
    · simp only [hek, beq_self_eq_true, if_true] at hfe
      exact hfe ▸ hP e hek
    · simp only [beq_iff_eq, hek, if_false] at hfe
      exact absurd (hfe ▸ hk) hek
  next hany =>
    exact absurd (List.any_eq_true.mpr ⟨e', h, by simpa using hk⟩) hany

theorem updateEntryDoc_rev_of_ne (st : Store) (k : Nat) (f : Entry → Entry)
    (hkey : ∀ e, (f e).key = e.key) {e' : Entry}
    (h : e' ∈ (updateEntryDoc st k f).1.entries) (hk : e'.key ≠ k) :
    e' ∈ st.entries := by
  obtain ⟨e, he, hcase⟩ := updateEntryDoc_mem_elim st k f h
  rcases hcase with ⟨rfl, _⟩ | ⟨hek, rfl⟩
  · exact he
  · exact absurd ((hkey e).trans hek) hk

theorem update_entry_hashes_none_none (st : Store) (k : Nat) :
    update_entry_hashes st k none none = (st, false) := rfl

theorem update_entry_hashes_reports (st : Store) (k : Nat) (m s : Option String) :
    (update_entry_hashes st k m s).1.reports = st.reports := by
  unfold update_entry_hashes
  split
  · exact updateEntryDoc_reports ..
  · rfl

theorem mem_update_entry_hashes_of_ne (st : Store) (k : Nat) (m s : Option String)
    {e : Entry} (he : e ∈ st.entries) (h : e.key ≠ k) :
    e ∈ (update_entry_hashes st k m s).1.entries := by
  unfold update_entry_hashes
  split
  · exact mem_updateEntryDoc_of_ne st k _ he h
  · exact he

theorem update_entry_hashes_rev_of_ne (st : Store) (k : Nat) (m s : Option String)
    {e' : Entry} (h : e' ∈ (update_entry_hashes st k m s).1.entries)
    (hk : e'.key ≠ k) : e' ∈ st.entries := by
  unfold update_entry_hashes at h
  split at h
  · refine updateEntryDoc_rev_of_ne st k _ ?_ h hk
    intro e
    rfl
  · exact h

theorem update_entry_hashes_sets (st : Store) (k : Nat) (m s : Option String)
    (hm : truthyStr m = true) (hs : truthyStr s = true) {e' : Entry}
    (h : e' ∈ (update_entry_hashes st k m s).1.entries) (hk : e'.key = k) :
    e'.md5_hash = m ∧ e'.sha256_hash = s := by
  unfold update_entry_hashes at h
  rw [hm, hs] at h
  simp only [Bool.true_or, if_true] at h
  exact updateEntryDoc_sets st k _
    (fun e => e.md5_hash = m ∧ e.sha256_hash = s)
    (fun e _ => by simp [hm, hs]) h hk

theorem mark_entry_corrupt_reports (st : Store) (k : Nat) (c : Bool) :
    (mark_entry_corrupt st k c).1.reports = st.reports :=
  updateEntryDoc_reports ..

theorem mark_entry_corrupt_sets (st : Store) (k : Nat) (c : Bool) {e' : Entry}
    (h : e' ∈ (mark_entry_corrupt st k c).1.entries) (hk : e'.key = k) :
    e'.corrupt = c :=
  updateEntryDoc_sets st k _ (fun e => e.corrupt = c) (fun _ _ => rfl) h hk

/-! ## Lemmas on reports and entry lookup -/

theorem get_entry_by_id_none_iff (st : Store) (eid : Nat) :
    get_entry_by_id st eid = none ↔ ∀ e ∈ st.entries, e.key ≠ eid := by
  unfold get_entry_by_id
  rw [Option.map_eq_none', List.find?_eq_none]
  simp

theorem resolve_report_entries (st : Store) (rid : Nat) (a b now : String) :
    (resolve_report st rid a b now).1.entries = st.entries := by
  unfold resolve_report
  split <;> rfl

theorem resolve_report_nextKey (st : Store) (rid : Nat) (a b now : String) :
    (resolve_report st rid a b now).1.nextKey = st.nextKey := by
  unfold resolve_report
  split <;> rfl

theorem resolve_report_mem_elim (st : Store) (rid : Nat) (a b now : String)
    {r' : Report} (h : r' ∈ (resolve_report st rid a b now).1.reports) :
    ∃ r ∈ st.reports, (r' = r ∧ r.key ≠ rid) ∨
      (r.key = rid ∧
        r' = { r with status := "resolved", resolved_at := some now,
                      resolved_by := some a, resolved_by_username := some b }) := by
  unfold resolve_report at h
  split at h
  · obtain ⟨r, hr, hfr⟩ := List.mem_map.mp h
    by_cases hk : r.key = rid
    · rw [if_pos (by simpa using hk)] at hfr
      exact ⟨r, hr, Or.inr ⟨hk, hfr.symm⟩⟩
    · rw [if_neg (by simpa using hk)] at hfr
      exact ⟨r, hr, Or.inl ⟨hfr.symm, hk⟩⟩
  next hany =>
    refine ⟨r', h, Or.inl ⟨rfl, fun hk => ?_⟩⟩
    exact hany (List.any_eq_true.mpr ⟨r', h, by simpa using hk⟩)

/-! ## Lemmas on the hash worker -/

theorem absorbLoop_spec (md5acc sha256acc rest : List Nat) :
    absorbLoop md5acc sha256acc rest = (md5acc ++ rest, sha256acc ++ rest) := by
  rw [absorbLoop]
  split
  next hemp =>
    have : rest = [] := List.isEmpty_iff.mp hemp
    subst this
    simp
  next hemp =>
    have h' : rest ≠ [] := fun hh => hemp (by simp [hh])
    rw [absorbLoop_spec]
    simp [List.append_assoc]
termination_by rest.length
decreasing_by
  have hp : 0 < rest.length := List.length_pos.mpr h'
  simp only [List.length_drop, chunkSize]
  omega

theorem computeHashesSync_spec (md5fun sha256fun : List Nat → String)
    (content : List Nat) :
    computeHashesSync md5fun sha256fun content =
      (md5fun content, sha256fun content) := by
  simp [computeHashesSync, absorbLoop_spec]

/-- A hex digest of positive length is a truthy string. -/
theorem truthyStr_of_length_pos {s : String} (h : 0 < s.length) :
    truthyStr (some s) = true := by
  cases he : s.isEmpty
  · simp [truthyStr, he]
  · rw [String.isEmpty_iff] at he
    subst he
    simp at h

theorem processSweepEntry_reports (fs : String → Option (List Nat))
    (md5fun sha256fun : List Nat → String) (failing : Nat → Bool)
    (st : Store) (item : SweepItem) :
    (processSweepEntry fs md5fun sha256fun failing st item).reports = st.reports := by
  unfold processSweepEntry
  split
  · split
    · exact update_entry_hashes_reports ..
    · rfl
  · split
    · split
      · exact update_entry_hashes_reports ..
      · rfl
    · split
      · rw [update_entry_hashes_reports, update_entry_hashes_reports]
      · rw [update_entry_hashes_reports, update_entry_hashes_reports]

theorem processSweepEntry_mem_of_ne (fs : String → Option (List Nat))
    (md5fun sha256fun : List Nat → String) (failing : Nat → Bool)
    (st : Store) (item : SweepItem) {e : Entry}
    (he : e ∈ st.entries) (hk : e.key ≠ item.key) :
    e ∈ (processSweepEntry fs md5fun sha256fun failing st item).entries := by
  unfold processSweepEntry
  split
  · split
    · exact mem_update_entry_hashes_of_ne _ _ _ _ he hk
    · exact he
  · split
    · split
      · exact mem_update_entry_hashes_of_ne _ _ _ _ he hk
      · exact he
    · split
      · exact mem_update_entry_hashes_of_ne _ _ _ _
          (mem_update_entry_hashes_of_ne _ _ _ _ he hk) hk
      · exact mem_update_entry_hashes_of_ne _ _ _ _
          (mem_update_entry_hashes_of_ne _ _ _ _ he hk) hk

theorem processSweepEntry_rev_of_ne (fs : String → Option (List Nat))
    (md5fun sha256fun : List Nat → String) (failing : Nat → Bool)
    (st : Store) (item : SweepItem) {e' : Entry}
    (h : e' ∈ (processSweepEntry fs md5fun sha256fun failing st item).entries)
    (hk : e'.key ≠ item.key) : e' ∈ st.entries := by
  unfold processSweepEntry at h
  split at h
  · split at h
    · exact update_entry_hashes_rev_of_ne _ _ _ _ h hk
    · exact h
  · split at h
    · split at h
      · exact update_entry_hashes_rev_of_ne _ _ _ _ h hk
      · exact h
    · split at h
      · exact update_entry_hashes_rev_of_ne _ _ _ _
          (update_entry_hashes_rev_of_ne _ _ _ _ h hk) hk
      · exact update_entry_hashes_rev_of_ne _ _ _ _
          (update_entry_hashes_rev_of_ne _ _ _ _ h hk) hk

/-- Successful per-entry processing: the claim is written and then replaced by
the streamed digests, so any entry under the key of the item ends with exactly the
two computed hex digests. -/
theorem processSweepEntry_sets_success (fs : String → Option (List Nat))
    (md5fun sha256fun : List Nat → String) (failing : Nat → Bool)
    (st : Store) (item : SweepItem) (content : List Nat)
    (hsrc : item.source.isEmpty = false) (hfs : fs item.source = some content)
    (hfail : failing item.key = false)
    (hm : 0 < (md5fun content).length) (hs : 0 < (sha256fun content).length)
    {e' : Entry}
    (h : e' ∈ (processSweepEntry fs md5fun sha256fun failing st item).entries)
    (hk : e'.key = item.key) :
    e'.md5_hash = some (md5fun content) ∧
    e'.sha256_hash = some (sha256fun content) := by
  unfold processSweepEntry at h
  rw [hsrc] at h
  simp only [Bool.false_eq_true, if_false] at h
  rw [hfs] at h
  simp only [hfail, Bool.false_eq_true, if_false, computeHashesSync_spec] at h
  exact update_entry_hashes_sets _ _ _ _
    (truthyStr_of_length_pos hm) (truthyStr_of_length_pos hs) h hk

/-- Failing per-entry processing: the claim is written, the computation
raises, and the error handler's `update_entry_hashes(id, None, None)` clear
attempt issues no write, so the entry is left holding the sentinel in both
fields. -/
theorem processSweepEntry_sets_failing (fs : String → Option (List Nat))
    (md5fun sha256fun : List Nat → String) (failing : Nat → Bool)
    (st : Store) (item : SweepItem) (content : List Nat)
    (hsrc : item.source.isEmpty = false) (hfs : fs item.source = some content)
    (hfail : failing item.key = true) {e' : Entry}
    (h : e' ∈ (processSweepEntry fs md5fun sha256fun failing st item).entries)
    (hk : e'.key = item.key) :
    e'.md5_hash = some "processing" ∧ e'.sha256_hash = some "processing" := by
  unfold processSweepEntry at h
  rw [hsrc] at h
  simp only [Bool.false_eq_true, if_false] at h
  rw [hfs] at h
  simp only [hfail, if_true, update_entry_hashes_none_none] at h
  exact update_entry_hashes_sets _ _ _ _ (by decide) (by decide) h hk

/-- Processing items whose keys all avoid `k` preserves any property of the
entries under key `k`. -/
theorem foldl_process_preserve (fs : String → Option (List Nat))
    (md5fun sha256fun : List Nat → String) (failing : Nat → Bool)
    (Q : Entry → Prop) (k : Nat) :
    ∀ (items : List SweepItem) (st : Store),
      (∀ it ∈ items, it.key ≠ k) →
      (∀ e ∈ st.entries, e.key = k → Q e) →
      ∀ e' ∈ (items.foldl (processSweepEntry fs md5fun sha256fun failing) st).entries,
        e'.key = k → Q e' := by
  intro items
  induction items with
  | nil => intro st _ hst e' he' hk; exact hst e' he' hk
  | cons a rest ih =>
    intro st hno hst e' he' hk
    refine ih (processSweepEntry fs md5fun sha256fun failing st a)
      (fun it hit => hno it (List.mem_cons_of_mem a hit)) ?_ e' he' hk
    intro e he hek
    have hne : e.key ≠ a.key := by
      rw [hek]
      exact fun hcon => hno a (List.mem_cons_self a rest) hcon.symm
    exact hst e (processSweepEntry_rev_of_ne fs md5fun sha256fun failing st a he hne) hek

/-- Entries whose key is hit by no item survive the whole fold unchanged. -/
theorem foldl_process_mem (fs : String → Option (List Nat))
    (md5fun sha256fun : List Nat → String) (failing : Nat → Bool) :
    ∀ (items : List SweepItem) (st : Store) (e : Entry),
      e ∈ st.entries → (∀ it ∈ items, it.key ≠ e.key) →
      e ∈ (items.foldl (processSweepEntry fs md5fun sha256fun failing) st).entries := by
  intro items
  induction items with
  | nil => intro st e he _; exact he
  | cons a rest ih =>
    intro st e he hno
    refine ih _ e ?_ (fun it hit => hno it (List.mem_cons_of_mem a hit))
    exact processSweepEntry_mem_of_ne fs md5fun sha256fun failing st a he
      (fun hcon => hno a (List.mem_cons_self a rest) hcon.symm)

/-- The fold never touches the `reports` collection. -/
theorem foldl_process_reports (fs : String → Option (List Nat))
    (md5fun sha256fun : List Nat → String) (failing : Nat → Bool) :
    ∀ (items : List SweepItem) (st : Store),
      (items.foldl (processSweepEntry fs md5fun sha256fun failing) st).reports =
        st.reports := by
  intro items
  induction items with
  | nil => intro st; rfl
  | cons a rest ih =>
    intro st
    rw [List.foldl_cons, ih, processSweepEntry_reports]

/-- If one item of a key-distinct batch establishes `Q` on the entries under
its key, the whole fold does. -/
theorem foldl_process_sets (fs : String → Option (List Nat))
    (md5fun sha256fun : List Nat → String) (failing : Nat → Bool)
    (Q : Entry → Prop) :
    ∀ (items : List SweepItem) (st : Store) (it : SweepItem),
      it ∈ items →
      (items.map (fun x => x.key)).Nodup →
      (∀ s : Store, ∀ e' ∈ (processSweepEntry fs md5fun sha256fun failing s it).entries,
        e'.key = it.key → Q e') →
      ∀ e' ∈ (items.foldl (processSweepEntry fs md5fun sha256fun failing) st).entries,
        e'.key = it.key → Q e' := by
  intro items
  induction items with
  | nil => intro st it hit; exact absurd hit (List.not_mem_nil it)
  | cons a rest ih =>
    intro st it hit hnd hstep e' he' hk
    rw [List.map_cons, List.nodup_cons] at hnd
    rcases List.mem_cons.mp hit with rfl | hmem
    · refine foldl_process_preserve fs md5fun sha256fun failing Q it.key rest
        (processSweepEntry fs md5fun sha256fun failing st it) ?_
        (hstep st) e' he' hk
      intro it2 hit2 hcon
      exact hnd.1 (hcon ▸ List.mem_map_of_mem (fun x => x.key) hit2)
    · exact ih (processSweepEntry fs md5fun sha256fun failing st a) it hmem hnd.2
        hstep e' he' hk

/-- Key-distinctness of the store carries over to the selection of the sweep. -/
theorem selection_keys_nodup (st : Store)
    (h : (st.entries.map (fun e => e.key)).Nodup) :
    (((selectEntriesForHashing st).map toSweepItem).map
      (fun it => it.key)).Nodup := by
  have hsub : List.Sublist ((selectEntriesForHashing st).map (fun e => e.key))
      (st.entries.map (fun e => e.key)) :=
    List.Sublist.map (fun e => e.key) (List.filter_sublist st.entries)
  have hnd := h.sublist hsub
  rw [List.map_map]
  exact hnd

/-! ## Lemmas on the directory scanner -/

theorem entry_exists_iff (st : Store) (s : String) :
    entry_exists st s = true ↔ ∃ e ∈ st.entries, e.source = s := by
  simp [entry_exists, List.any_eq_true]

theorem scanStep_mem (sizeOf : String → Nat) (u now : String)
    (acc : Store × Nat × Nat) (fp : String) {e : Entry}
    (he : e ∈ acc.1.entries) :
    e ∈ (scanStep sizeOf u now acc fp).1.entries := by
  unfold scanStep
  split
  · exact he
  · exact List.mem_append_left _ he

theorem scanStep_establishes (sizeOf : String → Nat) (u now : String)
    (acc : Store × Nat × Nat) (fp : String) :
    entry_exists (scanStep sizeOf u now acc fp).1 fp = true := by
  unfold scanStep
  split
  next hex => exact hex
  · rw [entry_exists_iff]
    exact ⟨_, List.mem_append_right _ (List.mem_singleton_self _), rfl⟩

theorem foldl_scan_mem (sizeOf : String → Nat) (u now : String) :
    ∀ (files : List String) (acc : Store × Nat × Nat) (e : Entry),
      e ∈ acc.1.entries →
      e ∈ (files.foldl (scanStep sizeOf u now) acc).1.entries := by
  intro files
  induction files with
  | nil => intro acc e he; exact he
  | cons fp rest ih =>
    intro acc e he
    exact ih _ e (scanStep_mem sizeOf u now acc fp he)

theorem foldl_scan_exists_mono (sizeOf : String → Nat) (u now : String)
    (files : List String) (acc : Store × Nat × Nat) (s : String)
    (h : entry_exists acc.1 s = true) :
    entry_exists (files.foldl (scanStep sizeOf u now) acc).1 s = true := by
  rw [entry_exists_iff] at h ⊢
  obtain ⟨e, he, hs⟩ := h
  exact ⟨e, foldl_scan_mem sizeOf u now files acc e he, hs⟩

theorem foldl_scan_establishes (sizeOf : String → Nat) (u now : String) :
    ∀ (files : List String) (acc : Store × Nat × Nat), ∀ fp ∈ files,
      entry_exists (files.foldl (scanStep sizeOf u now) acc).1 fp = true := by
  intro files
  induction files with
  | nil => intro acc fp hfp; exact absurd hfp (List.not_mem_nil fp)
  | cons a rest ih =>
    intro acc fp hfp
    rcases List.mem_cons.mp hfp with rfl | hmem
    · exact foldl_scan_exists_mono sizeOf u now rest _ fp
        (scanStep_establishes sizeOf u now acc fp)
    · exact ih _ fp hmem

theorem foldl_scan_skips_all (sizeOf : String → Nat) (u now : String) :
    ∀ (files : List String) (st : Store) (a s : Nat),
      (∀ fp ∈ files, entry_exists st fp = true) →
      files.foldl (scanStep sizeOf u now) (st, a, s) = (st, a, s + files.length) := by
  intro files
  induction files with
  | nil => intro st a s _; rfl
  | cons fp rest ih =>
    intro st a s hall
    have hfp : entry_exists st fp = true := hall fp (List.mem_cons_self fp rest)
    rw [List.foldl_cons]
    show rest.foldl (scanStep sizeOf u now) (scanStep sizeOf u now (st, a, s) fp) = _
    rw [show scanStep sizeOf u now (st, a, s) fp = (st, a, s + 1) by
      unfold scanStep; rw [hfp]; simp]
    rw [ih st a (s + 1) (fun q hq => hall q (List.mem_cons_of_mem fp hq))]
    simp [List.length_cons]
    omega

theorem scanStep_noDupSources (sizeOf : String → Nat) (u now : String)
    (acc : Store × Nat × Nat) (fp : String) (h : noDupSources acc.1) :
    noDupSources (scanStep sizeOf u now acc fp).1 := by
  unfold scanStep
  split
  · exact h
  next hex =>
    unfold noDupSources at h ⊢
    unfold add_entry
    simp only [List.pairwise_append, List.pairwise_cons]
    refine ⟨h, by simp, ?_⟩
    intro a ha b hb
    simp only [List.mem_singleton] at hb
    subst hb
    intro hcon
    apply hex
    rw [entry_exists_iff]
    exact ⟨a, ha, hcon⟩

theorem foldl_scan_noDupSources (sizeOf : String → Nat) (u now : String) :
    ∀ (files : List String) (acc : Store × Nat × Nat),
      noDupSources acc.1 →
      noDupSources (files.foldl (scanStep sizeOf u now) acc).1 := by
  intro files
  induction files with
  | nil => intro acc h; exact h
  | cons fp rest ih =>
    intro acc h
    exact ih _ (scanStep_noDupSources sizeOf u now acc fp h)

theorem constHex32_length (bs : List Nat) : (constHex32 bs).length = 32 := by
  show (("aaaaaaaaaaaaaaaaaaaaaaaaaaaaaaaa" : String)).length = 32
  decide

theorem constHex64_length (bs : List Nat) : (constHex64 bs).length = 64 := by
  show (("aaaaaaaaaaaaaaaaaaaaaaaaaaaaaaaaaaaaaaaaaaaaaaaaaaaaaaaaaaaaaaaa" : String)).length = 64
  decide

/-! ## Claim theorems -/

/-- Claim C1: for every store state, the bulk-clear operation
(`mod_clear_all_corrupt_flags` calling `db.clear_all_corrupt_flags`) sets
corrupt=false on every Entry whose corrupt flag was previously true, leaves
every other Entry and all Reports untouched, returns a count equal to the
number of Entries changed, and a second immediate run returns 0. -/
theorem clear_all_corrupt_flags_spec (st : Store) :
    ((mod_clear_all_corrupt_flags st).1.reports = st.reports) ∧
    (∀ e ∈ (mod_clear_all_corrupt_flags st).1.entries, e.corrupt = false) ∧
    (∀ e ∈ st.entries, e.corrupt = true →
      { e with corrupt := false } ∈ (mod_clear_all_corrupt_flags st).1.entries) ∧
    (∀ e ∈ st.entries, e.corrupt = false →
      e ∈ (mod_clear_all_corrupt_flags st).1.entries) ∧
    ((mod_clear_all_corrupt_flags st).2 =
      (st.entries.filter (fun e => e.corrupt)).length) ∧
    ((mod_clear_all_corrupt_flags (mod_clear_all_corrupt_flags st).1).2 = 0) := by
  have hall : ∀ e ∈ (mod_clear_all_corrupt_flags st).1.entries, e.corrupt = false := by
    intro e he
    obtain ⟨x, hx, hfx⟩ := List.mem_map.mp he
    by_cases hc : x.corrupt = true
    · rw [if_pos hc] at hfx
      rw [← hfx]
    · rw [if_neg hc] at hfx
      rw [← hfx]
      simpa using hc
  refine ⟨rfl, hall, ?_, ?_, rfl, ?_⟩
  · intro e he hc
    refine List.mem_map.mpr ⟨e, he, ?_⟩
    rw [if_pos hc]
  · intro e he hc
    refine List.mem_map.mpr ⟨e, he, ?_⟩
    rw [if_neg (by simp [hc])]
  · show ((mod_clear_all_corrupt_flags st).1.entries.filter (fun e => e.corrupt)).length = 0
    have hnil : (mod_clear_all_corrupt_flags st).1.entries.filter (fun e => e.corrupt) = [] :=
      List.filter_eq_nil_iff.mpr (fun e he => by simp [hall e he])
    rw [hnil]
    rfl

/-- Witness for C1 at a concrete two-entry store with one corrupt entry. -/
theorem clear_all_corrupt_flags_spec_witness :
    (mod_clear_all_corrupt_flags (mod_clear_all_corrupt_flags demoStoreCorrupt).1).2 = 0 :=
  (clear_all_corrupt_flags_spec demoStoreCorrupt).2.2.2.2.2

/-- Claim C10: `update_entry_hashes` writes only the digest fields whose given
value is truthy (a non-empty string); with both arguments `None` it performs
no store write and returns `False`; it can never remove a digest field or set
one back to absent once the field holds any value. -/
theorem update_entry_hashes_truthy_only (st : Store) (k : Nat) (m s : Option String) :
    (update_entry_hashes st k none none = (st, false)) ∧
    ((truthyStr m || truthyStr s) = false → update_entry_hashes st k m s = (st, false)) ∧
    (∀ e' ∈ (update_entry_hashes st k m s).1.entries, ∃ e ∈ st.entries,
      e' = e ∨ (e.key = k ∧
        e' = { e with md5_hash := if truthyStr m then m else e.md5_hash,
                      sha256_hash := if truthyStr s then s else e.sha256_hash })) ∧
    (∀ e' ∈ (update_entry_hashes st k m s).1.entries, e'.md5_hash = none →
      ∃ e ∈ st.entries, e.key = e'.key ∧ e.md5_hash = none) ∧
    (∀ e' ∈ (update_entry_hashes st k m s).1.entries, e'.sha256_hash = none →
      ∃ e ∈ st.entries, e.key = e'.key ∧ e.sha256_hash = none) := by
  have hchar : ∀ e' ∈ (update_entry_hashes st k m s).1.entries, ∃ e ∈ st.entries,
      e' = e ∨ (e.key = k ∧
        e' = { e with md5_hash := if truthyStr m then m else e.md5_hash,
                      sha256_hash := if truthyStr s then s else e.sha256_hash }) := by
    intro e' he'
    unfold update_entry_hashes at he'
    split at he'
    · obtain ⟨e, he, hcase⟩ := updateEntryDoc_mem_elim _ _ _ he'
      rcases hcase with ⟨hee, _⟩ | ⟨hek, hee⟩
      · exact ⟨e, he, Or.inl hee⟩
      · exact ⟨e, he, Or.inr ⟨hek, hee⟩⟩
    · exact ⟨e', he', Or.inl rfl⟩
  refine ⟨rfl, ?_, hchar, ?_, ?_⟩
  · intro h
    unfold update_entry_hashes
    rw [h]
    rfl
  · intro e' he' hnone
    obtain ⟨e, he, hcase⟩ := hchar e' he'
    rcases hcase with rfl | ⟨hek, rfl⟩
    · exact ⟨e', he, rfl, hnone⟩
    · refine ⟨e, he, rfl, ?_⟩
      by_cases hm : truthyStr m = true
      · rw [if_pos hm] at hnone
        simp only at hnone
        rw [hnone] at hm
        exact absurd hm (by simp [truthyStr])
      · rw [if_neg hm] at hnone
        simpa using hnone
  · intro e' he' hnone
    obtain ⟨e, he, hcase⟩ := hchar e' he'
    rcases hcase with rfl | ⟨hek, rfl⟩
    · exact ⟨e', he, rfl, hnone⟩
    · refine ⟨e, he, rfl, ?_⟩
      by_cases hs : truthyStr s = true
      · rw [if_pos hs] at hnone
        simp only at hnone
        rw [hnone] at hs
        exact absurd hs (by simp [truthyStr])
      · rw [if_neg hs] at hnone
        simpa using hnone

/-- Witness for C10: the double-`None` call is a pure no-op on a concrete
store. -/
theorem update_entry_hashes_truthy_only_witness :
    update_entry_hashes demoStoreStuck 1 none none = (demoStoreStuck, false) :=
  (update_entry_hashes_truthy_only demoStoreStuck 1 none none).1

/-- Claim C8: `resolve_report` changes only the status and resolution fields
of the targeted Report and no Entry at all; `mod_mark_entry_valid` (via
`mark_entry_corrupt`) changes only the corrupt field of the targeted Entry
and no Report at all. -/
theorem flag_report_decoupled (st : Store) (rid : Nat) (rbid rbun now : String)
    (eid : Nat) :
    ((resolve_report st rid rbid rbun now).1.entries = st.entries) ∧
    (∀ r ∈ (resolve_report st rid rbid rbun now).1.reports, r.key ≠ rid →
      r ∈ st.reports) ∧
    (∀ r ∈ (resolve_report st rid rbid rbun now).1.reports, r.key = rid →
      ∃ r0 ∈ st.reports, r0.key = rid ∧
        r = { r0 with status := "resolved", resolved_at := some now,
                      resolved_by := some rbid, resolved_by_username := some rbun }) ∧
    ((mod_mark_entry_valid st eid).1.reports = st.reports) ∧
    (∀ e ∈ (mod_mark_entry_valid st eid).1.entries, e.key ≠ eid →
      e ∈ st.entries) ∧
    (∀ e ∈ (mod_mark_entry_valid st eid).1.entries, e.key = eid →
      ∃ e0 ∈ st.entries, e0.key = eid ∧ e = { e0 with corrupt := false }) := by
  refine ⟨resolve_report_entries .., ?_, ?_, ?_, ?_, ?_⟩
  · intro r hr hne
    obtain ⟨r0, hr0, hcase⟩ := resolve_report_mem_elim _ _ _ _ _ hr
    rcases hcase with ⟨rfl, _⟩ | ⟨hk, rfl⟩
    · exact hr0
    · exact absurd hk hne
  · intro r hr hk
    obtain ⟨r0, hr0, hcase⟩ := resolve_report_mem_elim _ _ _ _ _ hr
    rcases hcase with ⟨rfl, hne⟩ | ⟨hk0, rfl⟩
    · exact absurd hk hne
    · exact ⟨r0, hr0, hk0, rfl⟩
  · cases hg : get_entry_by_id st eid with
    | none => simp [mod_mark_entry_valid, hg]
    | some v =>
      simp only [mod_mark_entry_valid, hg]
      exact mark_entry_corrupt_reports ..
  · intro e he hne
    unfold mod_mark_entry_valid at he
    cases hg : get_entry_by_id st eid with
    | none => rw [hg] at he; exact he
    | some v =>
      rw [hg] at he
      refine updateEntryDoc_rev_of_ne _ _ _ ?_ he hne
      intro x
      rfl
  · intro e he hk
    unfold mod_mark_entry_valid at he
    cases hg : get_entry_by_id st eid with
    | none =>
      rw [hg] at he
      exact absurd hk ((get_entry_by_id_none_iff st eid).mp hg e he)
    | some v =>
      rw [hg] at he
      obtain ⟨e0, he0, hcase⟩ := updateEntryDoc_mem_elim _ _ _ he
      rcases hcase with ⟨rfl, hne⟩ | ⟨hk0, rfl⟩
      · exact absurd hk hne
      · exact ⟨e0, he0, hk0, rfl⟩

/-- Witness for C8 at a concrete store. -/
theorem flag_report_decoupled_witness :
    (resolve_report demoStoreHashed 5 "mod1" "modname" "t1").1.entries =
      demoStoreHashed.entries :=
  (flag_report_decoupled demoStoreHashed 5 "mod1" "modname" "t1" 1).1

/-- Claim C5: the sweep selects exactly the `filepath` entries with an absent
or sentinel digest field; an entry with two valid digests is never selected,
and an entry with both fields equal to the sentinel is selected. -/
theorem sweep_selection_spec (st : Store) (e : Entry) :
    (e ∈ selectEntriesForHashing st ↔
      e ∈ st.entries ∧ e.type = "filepath" ∧
        (e.md5_hash = none ∨ e.sha256_hash = none ∨
         e.md5_hash = some "processing" ∨ e.sha256_hash = some "processing")) ∧
    (∀ m5 s6 : String, e.md5_hash = some m5 → m5 ≠ "processing" →
      e.sha256_hash = some s6 → s6 ≠ "processing" →
      e ∉ selectEntriesForHashing st) ∧
    (e ∈ st.entries → e.type = "filepath" → e.md5_hash = some "processing" →
      e.sha256_hash = some "processing" → e ∈ selectEntriesForHashing st) := by
  have hiff : e ∈ selectEntriesForHashing st ↔
      e ∈ st.entries ∧ e.type = "filepath" ∧
        (e.md5_hash = none ∨ e.sha256_hash = none ∨
         e.md5_hash = some "processing" ∨ e.sha256_hash = some "processing") := by
    simp [selectEntriesForHashing, List.mem_filter, needsHashAttention, or_assoc]
  refine ⟨hiff, ?_, ?_⟩
  · intro m5 s6 hm hmne hs hsne hmem
    obtain ⟨_, _, hdisj⟩ := hiff.mp hmem
    rcases hdisj with h | h | h | h
    · rw [hm] at h; exact Option.noConfusion h
    · rw [hs] at h; exact Option.noConfusion h
    · rw [hm] at h; exact hmne (Option.some.inj h)
    · rw [hs] at h; exact hsne (Option.some.inj h)
  · intro he ht hm hs
    exact hiff.mpr ⟨he, ht, Or.inr (Or.inr (Or.inl hm))⟩

/-- Witness for C5: the fully-hashed demo entry is not selected; the stuck
demo entry is. -/
theorem sweep_selection_spec_witness :
    demoEntryHashed ∉ selectEntriesForHashing demoStoreHashed ∧
    demoEntryStuck ∈ selectEntriesForHashing demoStoreStuck :=
  ⟨(sweep_selection_spec demoStoreHashed demoEntryHashed).2.1
      "0123456789abcdef0123456789abcdef"
      "0123456789abcdef0123456789abcdef0123456789abcdef0123456789abcdef"
      rfl (by decide) rfl (by decide),
   (sweep_selection_spec demoStoreStuck demoEntryStuck).2.2
      (List.mem_singleton_self _) rfl rfl rfl⟩

/-- Reduction of `submit_report` when validation passes and the entry is
found. -/
theorem submit_report_found (st : Store) (eid : Nat)
    (en reason desc uid un : String) (v : List (String × DVal))
    (hre : reason.isEmpty = false) (hv : get_entry_by_id st eid = some v) :
    submit_report st eid en reason desc uid un =
      ((mark_entry_corrupt
          (create_report st eid
            (if !en.isEmpty then en else dictGetStr v "name" "Unknown")
            uid un reason desc).1 eid true).1,
       SubmitResult.created st.nextKey) := by
  simp only [submit_report, hre, Bool.false_eq_true, if_false, hv]
  rfl

/-- Claim C4: `submit_report` rejects without any store change when the target
Entry does not exist; otherwise it appends exactly one new open Report and
then forces the corrupt flag of the target Entry to true, regardless of its prior
value, leaving every other Entry in place. -/
theorem submit_report_spec (st : Store) (eid : Nat)
    (en reason desc uid un : String) :
    (get_entry_by_id st eid = none →
      submit_report st eid en reason desc uid un =
        (st, if reason.isEmpty then SubmitResult.badRequest else SubmitResult.notFound)) ∧
    (reason.isEmpty = false → ∀ v, get_entry_by_id st eid = some v →
      (∃ rep : Report,
        (submit_report st eid en reason desc uid un).1.reports = st.reports ++ [rep] ∧
        rep.status = "open" ∧ rep.entry_id = eid ∧ rep.reason = reason) ∧
      ((submit_report st eid en reason desc uid un).1.reports.length =
        st.reports.length + 1) ∧
      (∀ e ∈ (submit_report st eid en reason desc uid un).1.entries, e.key = eid →
        e.corrupt = true) ∧
      (∀ e ∈ st.entries, e.key ≠ eid →
        e ∈ (submit_report st eid en reason desc uid un).1.entries) ∧
      ((submit_report st eid en reason desc uid un).2 =
        SubmitResult.created st.nextKey)) := by
  constructor
  · intro hnone
    cases hre : reason.isEmpty
    · simp [submit_report, hre, hnone]
    · simp [submit_report, hre, hnone]
  · intro hre v hv
    rw [submit_report_found st eid en reason desc uid un v hre hv]
    have hrep : (mark_entry_corrupt
        (create_report st eid
          (if !en.isEmpty then en else dictGetStr v "name" "Unknown")
          uid un reason desc).1 eid true).1.reports =
        st.reports ++
          [⟨st.nextKey, eid,
            (if !en.isEmpty then en else dictGetStr v "name" "Unknown"),
            uid, un, reason, desc, "open", none, none, none⟩] := by
      rw [mark_entry_corrupt_reports]
      rfl
    refine ⟨⟨_, hrep, rfl, rfl, rfl⟩, ?_, ?_, ?_, rfl⟩
    · rw [hrep, List.length_append]
      rfl
    · intro e he hk
      exact mark_entry_corrupt_sets _ _ _ he hk
    · intro e he hne
      exact mem_updateEntryDoc_of_ne _ _ _ he hne

/-- Witness for C4: submitting a report against the hashed demo entry appends
one open report and flips the corrupt flag. -/
theorem submit_report_spec_witness :
    (∀ e ∈ (submit_report demoStoreHashed 1 "A" "corrupt" "d" "u7" "u").1.entries,
      e.key = 1 → e.corrupt = true) ∧
    (submit_report demoStoreHashed 1 "A" "corrupt" "d" "u7" "u").1.reports.length =
      demoStoreHashed.reports.length + 1 := by
  have h := (submit_report_spec demoStoreHashed 1 "A" "corrupt" "d" "u7" "u").2
    rfl _ rfl
  exact ⟨h.2.2.1, h.2.1⟩

/-- Claim C2 (refuted by the code): the sweep is supposed to reset a vanished
file's sentinel digest fields to absent, but its clear call
`update_entry_hashes(id, None, None)` issues no write, so the store is left
exactly as it was: both fields still hold the sentinel. -/
theorem sweep_vanished_file_keeps_sentinel :
    runHashSweep fsGone constHex32 constHex64 noFailures demoStoreStuck =
      demoStoreStuck ∧
    demoEntryStuck.md5_hash = some "processing" ∧
    demoEntryStuck.sha256_hash = some "processing" :=
  ⟨rfl, rfl, rfl⟩

/-- Claim C3 (refuted by the code): the dict rebuilt by `get_entry_by_id`
carries no digest keys, so `compute_file_hashes` can never take its cached
branch; on a fully-hashed entry with an existing file it instead acknowledges
and schedules a fresh background computation. -/
theorem compute_file_hashes_cached_unreachable :
    (compute_file_hashes demoStoreHashed fsEmptyFiles 1 =
      HashResp.processingAck 1 "/games/a.nsp") ∧
    (∀ (st : Store) (fs : String → Option (List Nat)) (eid : Nat) (m s : String),
      compute_file_hashes st fs eid ≠ HashResp.cached m s) := by
  constructor
  · rfl
  · intro st fs eid m s hcon
    unfold compute_file_hashes get_entry_by_id at hcon
    cases hfind : st.entries.find? (fun e => e.key == eid) with
    | none => rw [hfind] at hcon; simp at hcon
    | some doc =>
      rw [hfind] at hcon
      simp only [Option.map_some'] at hcon
      rw [show truthyD (dictGet [("id", DVal.num doc.key), ("name", DVal.str doc.name),
            ("source", DVal.str doc.source), ("type", DVal.str doc.type),
            ("file_type", DVal.str doc.file_type), ("size", DVal.num doc.size),
            ("created_at", DVal.str doc.created_at),
            ("created_by", DVal.str doc.created_by),
            ("metadata", DVal.null)] "md5_hash") = false from rfl] at hcon
      simp only [Bool.false_and, Bool.false_eq_true, if_false] at hcon
      split at hcon
      · exact HashResp.noConfusion hcon
      · split at hcon
        · exact HashResp.noConfusion hcon
        · exact HashResp.noConfusion hcon

/-- Claim C6: rescanning the same candidate tree with no intervening changes
adds nothing, skips every candidate, and source-uniqueness of entries is
preserved by scanning. -/
theorem scan_idempotent_spec (st : Store) (files : List String)
    (sizeOf : String → Nat) (u now : String) :
    (scan_directory_for_files
        (scan_directory_for_files st files sizeOf u now).1 files sizeOf u now =
      ((scan_directory_for_files st files sizeOf u now).1, 0, files.length)) ∧
    (noDupSources st →
      noDupSources (scan_directory_for_files st files sizeOf u now).1) := by
  constructor
  · unfold scan_directory_for_files
    rw [foldl_scan_skips_all sizeOf u now files _ 0 0
      (fun fp hfp => foldl_scan_establishes sizeOf u now files (st, 0, 0) fp hfp)]
    rw [Nat.zero_add]
  · intro h
    exact foldl_scan_noDupSources sizeOf u now files (st, 0, 0) h

/-- Witness for C6 at a concrete store and candidate list. -/
theorem scan_idempotent_spec_witness :
    noDupSources (scan_directory_for_files demoStoreHashed ["/games/a.nsp"]
      (fun _ => 10) "admin" "t1").1 :=
  (scan_idempotent_spec demoStoreHashed ["/games/a.nsp"] (fun _ => 10) "admin" "t1").2
    (by simp [noDupSources, demoStoreHashed])

/-- Claim C7: the single-pass chunked digest computation equals hashing the
whole content at once; under the hashlib digest-length contract (32/64 hex
characters) a successful sweep step stores exactly those digests, which are
never the sentinel. -/
theorem digest_streaming_spec (f g : List Nat → String) (content : List Nat)
    (fs : String → Option (List Nat)) (failing : Nat → Bool)
    (st : Store) (item : SweepItem)
    (hf : ∀ bs, (f bs).length = 32) (hg : ∀ bs, (g bs).length = 64) :
    (computeHashesSync f g content = (f content, g content)) ∧
    ((computeHashesSync f g content).1.length = 32 ∧
     (computeHashesSync f g content).2.length = 64 ∧
     (computeHashesSync f g content).1 ≠ "processing" ∧
     (computeHashesSync f g content).2 ≠ "processing") ∧
    (item.source.isEmpty = false → fs item.source = some content →
      failing item.key = false →
      ∀ e' ∈ (processSweepEntry fs f g failing st item).entries, e'.key = item.key →
        e'.md5_hash = some (f content) ∧ e'.sha256_hash = some (g content)) := by
  have hcs := computeHashesSync_spec f g content
  refine ⟨hcs, ⟨?_, ?_, ?_, ?_⟩, ?_⟩
  · rw [hcs]
    exact hf content
  · rw [hcs]
    exact hg content
  · intro hcon
    have h32 : ("processing" : String).length = 32 := by
      rw [← hcon, hcs]
      exact hf content
    exact absurd h32 (by decide)
  · intro hcon
    have h64 : ("processing" : String).length = 64 := by
      rw [← hcon, hcs]
      exact hg content
    exact absurd h64 (by decide)
  · intro hsrc hfs hfail e' he' hk
    exact processSweepEntry_sets_success fs f g failing st item content hsrc hfs hfail
      (by rw [hf content]; decide) (by rw [hg content]; decide) he' hk

/-- Witness for C7 with concrete fixed-shape digest functions. -/
theorem digest_streaming_spec_witness :
    computeHashesSync constHex32 constHex64 [] = (constHex32 [], constHex64 []) :=
  (digest_streaming_spec constHex32 constHex64 [] fsEmptyFiles noFailures
    demoStoreStuck (toSweepItem demoEntryStuck)
    constHex32_length constHex64_length).1

/-- Claim C9: within one sweep, a per-entry failure is confined to that entry:
every other selected entry still gets processed and receives its digests, the
failing entry itself is left to the error handler (claim written, clear
attempted), unselected entries survive untouched, and the reports collection
is never touched. -/
theorem sweep_failure_isolation (fs : String → Option (List Nat))
    (f g : List Nat → String) (failing : Nat → Bool) (st : Store)
    (hf : ∀ bs, (f bs).length = 32) (hg : ∀ bs, (g bs).length = 64)
    (hkeys : (st.entries.map (fun e => e.key)).Nodup) :
    ((runHashSweep fs f g failing st).reports = st.reports) ∧
    (∀ e ∈ st.entries, needsHashAttention e = false →
      e ∈ (runHashSweep fs f g failing st).entries) ∧
    (∀ it ∈ (selectEntriesForHashing st).map toSweepItem,
      failing it.key = false → it.source.isEmpty = false →
      ∀ c, fs it.source = some c →
      ∀ e' ∈ (runHashSweep fs f g failing st).entries, e'.key = it.key →
        e'.md5_hash = some (f c) ∧ e'.sha256_hash = some (g c)) ∧
    (∀ it ∈ (selectEntriesForHashing st).map toSweepItem,
      failing it.key = true → it.source.isEmpty = false →
      ∀ c, fs it.source = some c →
      ∀ e' ∈ (runHashSweep fs f g failing st).entries, e'.key = it.key →
        e'.md5_hash = some "processing" ∧ e'.sha256_hash = some "processing") := by
  have hnd := selection_keys_nodup st hkeys
  refine ⟨foldl_process_reports fs f g failing _ st, ?_, ?_, ?_⟩
  · intro e he hne
    refine foldl_process_mem fs f g failing _ st e he ?_
    intro it hit hcon
    obtain ⟨e2, he2, hte⟩ := List.mem_map.mp hit
    have he2' := (List.mem_filter.mp he2).1
    have hkey2 : e2.key = e.key := by
      rw [← hcon, ← hte]
      rfl
    have : e2 = e := List.inj_on_of_nodup_map hkeys he2' he hkey2
    subst this
    rw [(List.mem_filter.mp he2).2] at hne
    exact Bool.noConfusion hne
  · intro it hit hfail hsrc c hfs e' he' hk
    refine foldl_process_sets fs f g failing
      (fun x => x.md5_hash = some (f c) ∧ x.sha256_hash = some (g c))
      _ st it hit hnd ?_ e' he' hk
    intro s e2 he2 hk2
    exact processSweepEntry_sets_success fs f g failing s it c hsrc hfs hfail
      (by rw [hf c]; decide) (by rw [hg c]; decide) he2 hk2
  · intro it hit hfail hsrc c hfs e' he' hk
    refine foldl_process_sets fs f g failing
      (fun x => x.md5_hash = some "processing" ∧ x.sha256_hash = some "processing")
      _ st it hit hnd ?_ e' he' hk
    intro s e2 he2 hk2
    exact processSweepEntry_sets_failing fs f g failing s it c hsrc hfs hfail he2 hk2

/-- Witness for C9: on a concrete store the sweep leaves the reports
collection unchanged. -/
theorem sweep_failure_isolation_witness :
    (runHashSweep fsEmptyFiles constHex32 constHex64 noFailures demoStoreStuck).reports =
      demoStoreStuck.reports :=
  (sweep_failure_isolation fsEmptyFiles constHex32 constHex64 noFailures demoStoreStuck
    constHex32_length constHex64_length (by decide)).1

end SwitchRepo
